import Mathlib

/-
Verification of the hexagonal sensor-grid generator and dashboard aggregation
logic of app.py (function generate_hex_grid_from_geojson and the callbacks
update_insights and show_sensor_detail).

Embedding conventions:
* Machine floats are modelled as exact numbers (ℚ for the pipeline and the
  aggregation layer, ℝ where the source uses sqrt / sin / cos).
* The shapely library calls (Polygon.intersection, Polygon.area) are external
  to the repository; they are modelled as oracle functions passed to the
  pipeline, while the acceptance condition applied to their results is
  translated literally from the source.
* numpy random draws are modelled as explicit input streams, one tuple of
  draws consumed per accepted cell (the source draws exactly once per
  accepted candidate, in acceptance order).
* numpy round(x, 2) rounds half to even; roundHalfEven reproduces that.
-/

/-- Result of a shapely intersection as consumed by the source at line 44:
only the fields is_empty and area are inspected. -/
structure GeoResult where
  is_empty : Bool
  area : ℚ
deriving DecidableEq

/-- Line 44 of app.py:
if not inter.is_empty and inter.area / hex_poly.area > 0.5. -/
def acceptCell (inter : GeoResult) (hexArea : ℚ) : Bool :=
  (! inter.is_empty) && decide (1/2 < inter.area / hexArea)

/-- One tuple of random draws, consumed per accepted cell (lines 51-55):
zT, zH, zC are the three np.random.randn() standard-normal draws and
smoke, battery the two np.random.randint draws. -/
structure Draws where
  zT : ℚ
  zH : ℚ
  zC : ℚ
  smoke : ℤ
  battery : ℤ

/-- One GeoJSON feature of the grid (lines 45-49): the exterior ring of the
hexagon, the grid_id property and the center coordinates. -/
structure Feature where
  ring : List (ℚ × ℚ)
  grid_id : ℕ
  center_lon : ℚ
  center_lat : ℚ
deriving DecidableEq

/-- The accumulator of the generation loop (lines 38-39): the seven parallel
lists plus the running grid_id counter. -/
structure GenAcc where
  features : List Feature
  centers : List (ℚ × ℚ)
  temp_values : List ℚ
  hum_values : List ℚ
  co2_values : List ℚ
  smoke_values : List ℤ
  battery_values : List ℤ
  grid_id : ℕ

/-- Initial accumulator (lines 38-39): empty lists, grid_id = 0. -/
def genInit : GenAcc :=
  { features := [], centers := [], temp_values := [], hum_values := [],
    co2_values := [], smoke_values := [], battery_values := [], grid_id := 0 }

/-- One iteration of the loop at lines 40-56.  ringOf c models
hexagon_flat(center, hex_size) / hex_poly.exterior.coords, interOf c models
hex_poly.intersection(polygon_shape), areaOf c models hex_poly.area, and
draws supplies the random draws consumed by the accepted cell (the k-th
accepted cell consumes the k-th tuple and has grid_id = k).
Note line 50 appends the center as (lat, lon). -/
def genStep (ringOf : ℚ × ℚ → List (ℚ × ℚ)) (interOf : ℚ × ℚ → GeoResult)
    (areaOf : ℚ × ℚ → ℚ) (draws : ℕ → Draws) (st : GenAcc) (c : ℚ × ℚ) : GenAcc :=
  if acceptCell (interOf c) (areaOf c) then
    { features := st.features ++
        [{ ring := ringOf c, grid_id := st.grid_id, center_lon := c.1, center_lat := c.2 }],
      centers := st.centers ++ [(c.2, c.1)],
      temp_values := st.temp_values ++
        [25 + (draws st.grid_id).zT * 3 + ((st.grid_id % 5 : ℕ) : ℚ)],
      hum_values := st.hum_values ++
        [60 + (draws st.grid_id).zH * 5 - ((st.grid_id % 3 : ℕ) : ℚ)],
      co2_values := st.co2_values ++
        [350 + (draws st.grid_id).zC * 10 + ((st.grid_id % 7 : ℕ) : ℚ) * 5],
      smoke_values := st.smoke_values ++ [(draws st.grid_id).smoke],
      battery_values := st.battery_values ++ [(draws st.grid_id).battery],
      grid_id := st.grid_id + 1 }
  else st

/-- Round half to even, as numpy round does on ties. -/
def roundHalfEven (x : ℚ) : ℤ :=
  if x - ⌊x⌋ < 1/2 then ⌊x⌋
  else if 1/2 < x - ⌊x⌋ then ⌊x⌋ + 1
  else if ⌊x⌋ % 2 = 0 then ⌊x⌋ else ⌊x⌋ + 1

/-- np.round(x, 2): round to two decimal places. -/
def round2 (x : ℚ) : ℚ := (roundHalfEven (x * 100) : ℚ) / 100

/-- The row-aligned record table built at lines 59-68, kept column-oriented
exactly as the DataFrame constructor receives it. -/
structure DataFrameGrid where
  grid_id : List ℕ
  temperature : List ℚ
  humidity : List ℚ
  co2 : List ℚ
  smoke : List ℤ
  battery : List ℤ
  center_lat : List ℚ
  center_lon : List ℚ
deriving DecidableEq

/-- The triple returned at line 69: df_grid, grid_geojson (its features), and
the unchanged polygon_coords. -/
structure GenOutput where
  df : DataFrameGrid
  features : List Feature
  boundary : List (ℚ × ℚ)

/-- Lines 38-69 of generate_hex_grid_from_geojson: fold the per-candidate
loop over the candidate centers, then assemble the DataFrame (line 60 sets
the grid_id column to list(range(grid_id)); lines 61-63 apply np.round(_, 2)
to the three float columns; lines 66-67 split the (lat, lon) center pairs). -/
def generate (boundary : List (ℚ × ℚ)) (cands : List (ℚ × ℚ))
    (ringOf : ℚ × ℚ → List (ℚ × ℚ)) (interOf : ℚ × ℚ → GeoResult)
    (areaOf : ℚ × ℚ → ℚ) (draws : ℕ → Draws) : GenOutput :=
  let st := cands.foldl (genStep ringOf interOf areaOf draws) genInit
  { df := { grid_id := List.range st.grid_id,
            temperature := st.temp_values.map round2,
            humidity := st.hum_values.map round2,
            co2 := st.co2_values.map round2,
            smoke := st.smoke_values,
            battery := st.battery_values,
            center_lat := st.centers.map (fun c => c.1),
            center_lon := st.centers.map (fun c => c.2) },
    features := st.features,
    boundary := boundary }

/-- Invariant of the generation loop relating the accumulator to the draw
stream: every parallel list is the image of List.range grid_id under the
per-cell synthesis formula of lines 51-55. -/
def GenInv (draws : ℕ → Draws) (st : GenAcc) : Prop :=
  st.features.map (fun f => f.grid_id) = List.range st.grid_id ∧
  st.temp_values =
    (List.range st.grid_id).map (fun g => 25 + (draws g).zT * 3 + ((g % 5 : ℕ) : ℚ)) ∧
  st.hum_values =
    (List.range st.grid_id).map (fun g => 60 + (draws g).zH * 5 - ((g % 3 : ℕ) : ℚ)) ∧
  st.co2_values =
    (List.range st.grid_id).map (fun g => 350 + (draws g).zC * 10 + ((g % 7 : ℕ) : ℚ) * 5) ∧
  st.smoke_values = (List.range st.grid_id).map (fun g => (draws g).smoke) ∧
  st.battery_values = (List.range st.grid_id).map (fun g => (draws g).battery) ∧
  st.centers.length = st.grid_id

/-- One sensor record, i.e. one row of the record table as read back by the
dashboard callbacks (pd.read_json of df_grid). -/
structure Record where
  grid_id : ℕ
  temperature : ℚ
  humidity : ℚ
  co2 : ℚ
  smoke : ℤ
  battery : ℤ
  center_lat : ℚ
  center_lon : ℚ
deriving DecidableEq

/-- df[df["temperature"] > 32] at line 329. -/
def highTemp (rows : List Record) : List Record :=
  rows.filter (fun r => decide (32 < r.temperature))

/-- df[df["co2"] > 400] at line 330. -/
def highCo2 (rows : List Record) : List Record :=
  rows.filter (fun r => decide (400 < r.co2))

/-- df[df["smoke"] > 70] at line 331. -/
def highSmoke (rows : List Record) : List Record :=
  rows.filter (fun r => decide (70 < r.smoke))

/-- nlargest(1, metric).iloc[0] with the default keep="first": the first row
attaining the maximum of the metric, folded left to right. -/
def pickTop {β : Type} [LinearOrder β] (metric : Record → β) (rows : List Record) :
    Option Record :=
  rows.foldl
    (fun acc r =>
      match acc with
      | none => some r
      | some b => if metric b < metric r then some r else some b)
    none

/-- One critical alert of update_insights (lines 333-369): each threshold
alert carries the matched count and the grid_id and metric value of the top
sensor; nominal is the single success alert emitted when no scan matched. -/
inductive Alert where
  | temp (count : ℕ) (gid : ℕ) (value : ℚ) : Alert
  | co2 (count : ℕ) (gid : ℕ) (value : ℚ) : Alert
  | smoke (count : ℕ) (gid : ℕ) (value : ℤ) : Alert
  | nominal : Alert
deriving DecidableEq

/-- The critical-alerts section of update_insights (lines 327-369): three
independent threshold scans, each guarded by len > 0 (modelled by the match
on pickTop, which is none exactly on the empty selection), appended in the
order temperature, co2, smoke; if the list is still empty a single nominal
alert is produced instead. -/
def scanAlerts (rows : List Record) : List Alert :=
  let a1 : List Alert :=
    match pickTop (fun r => r.temperature) (highTemp rows) with
    | some b => [Alert.temp (highTemp rows).length b.grid_id b.temperature]
    | none => []
  let a2 : List Alert :=
    match pickTop (fun r => r.co2) (highCo2 rows) with
    | some b => [Alert.co2 (highCo2 rows).length b.grid_id b.co2]
    | none => []
  let a3 : List Alert :=
    match pickTop (fun r => r.smoke) (highSmoke rows) with
    | some b => [Alert.smoke (highSmoke rows).length b.grid_id b.smoke]
    | none => []
  let critical := a1 ++ a2 ++ a3
  if critical.isEmpty then [Alert.nominal] else critical

/-- Errors of the selection lookup at line 479 of show_sensor_detail.
indexError models the IndexError that pandas .iloc[0] raises on an empty
selection (it is not caught: the try block ends at line 476);
selectionNotFound is the SelectionNotFoundError named by the specification,
which no code path produces. -/
inductive LookupError where
  | indexError : LookupError
  | selectionNotFound : LookupError
deriving DecidableEq

/-- Line 479: df[df["grid_id"] == grid_id].iloc[0] - the first row whose
grid_id matches, and an uncaught IndexError when the selection is empty. -/
def resolveSelection (rows : List Record) (gid : ℕ) : Except LookupError Record :=
  match (rows.filter (fun r => decide (r.grid_id = gid))).head? with
  | some r => Except.ok r
  | none => Except.error LookupError.indexError

variable {K : Type} [LinearOrderedField K]

/-- The stepping while loop shared by lines 24-31 of app.py:
x = start; while x < stop: emit x; x += step.  It terminates because each
iteration removes one from the ceiling of the remaining distance divided by
the (positive) step. -/
def stepList [FloorRing K] (stop step : K) (hstep : 0 < step) (x : K) : List K :=
  if h : x < stop then x :: stepList stop step hstep (x + step) else []
termination_by (⌈(stop - x) / step⌉).toNat
decreasing_by
  have hne : step ≠ 0 := ne_of_gt hstep
  have key : (stop - (x + step)) / step = (stop - x) / step - 1 := by
    rw [show stop - (x + step) = (stop - x) - step from by ring, sub_div, div_self hne]
  have hpos : 0 < (stop - x) / step := div_pos (by linarith) hstep
  have hceil : 0 < ⌈(stop - x) / step⌉ := Int.ceil_pos.mpr hpos
  have hone : ⌈(stop - x) / step - 1⌉ = ⌈(stop - x) / step⌉ - 1 := by
    have h1 := Int.ceil_sub_int ((stop - x) / step) 1
    simpa using h1
  rw [key, hone]
  omega

/-- Vertical shift of a column (line 27 of app.py):
lat_shift = 0.5 * hex_height if col % 2 == 1 else 0. -/
def colShift (h : K) (col : ℕ) : K := if col % 2 = 1 then h / 2 else 0

/-- The nested while loops at lines 21-32 of app.py, producing the candidate
centers column by column: the outer loop advances lon by the horizontal
pitch w while lon < stopLon and counts columns, the inner loop advances lat
by the vertical pitch h from minLat while lat < stopLat, and the emitted
center is (lon, lat + lat_shift) with the odd-column shift of line 27.
The source appends lon and the shifted lat to two parallel lists that are
zipped back into pairs at line 40; the pairs are produced directly here. -/
def hexCentersAux [FloorRing K] (stopLon stopLat w h : K) (hw : 0 < w) (hh : 0 < h)
    (minLat : K) (col : ℕ) (lon : K) : List (K × K) :=
  if hcol : lon < stopLon then
    ((stepList stopLat h hh minLat).map (fun lat => (lon, lat + colShift h col))) ++
      hexCentersAux stopLon stopLat w h hw hh minLat (col + 1) (lon + w)
  else []
termination_by (⌈(stopLon - lon) / w⌉).toNat
decreasing_by
  have hne : w ≠ 0 := ne_of_gt hw
  have key : (stopLon - (lon + w)) / w = (stopLon - lon) / w - 1 := by
    rw [show stopLon - (lon + w) = (stopLon - lon) - w from by ring, sub_div, div_self hne]
  have hpos : 0 < (stopLon - lon) / w := div_pos (by linarith) hw
  have hceil : 0 < ⌈(stopLon - lon) / w⌉ := Int.ceil_pos.mpr hpos
  have hone : ⌈(stopLon - lon) / w - 1⌉ = ⌈(stopLon - lon) / w⌉ - 1 := by
    have h1 := Int.ceil_sub_int ((stopLon - lon) / w) 1
    simpa using h1
  rw [key, hone]
  omega

/-- Lines 17-32 of app.py: from the bounding box and hex_size, the column
sweep starts at min_lon with hex_width = 1.5 * hex_size (line 18) and
hex_height = np.sqrt(3) * hex_size (line 19); column counting starts at
col = 0 (line 22). -/
noncomputable def gridCenters (minLon minLat maxLon maxLat size : ℝ)
    (hsize : 0 < size) : List (ℝ × ℝ) :=
  hexCentersAux (maxLon + 1.5 * size) (maxLat + Real.sqrt 3 * size)
    (1.5 * size) (Real.sqrt 3 * size)
    (by linarith)
    (mul_pos (Real.sqrt_pos.mpr (by norm_num)) hsize)
    minLat 0 minLon

/-- np.deg2rad. -/
noncomputable def deg2rad (d : ℝ) : ℝ := d * Real.pi / 180

/-- Lines 34-36 of app.py: hexagon_flat builds the ring of a flat-top
hexagon, one vertex per angle in np.deg2rad([0, 60, 120, 180, 240, 300, 0]),
each at (center_lon + size * cos a, center_lat + size * sin a). -/
noncomputable def hexagon_flat (center_lon center_lat size : ℝ) : List (ℝ × ℝ) :=
  (([0, 60, 120, 180, 240, 300, 0] : List ℝ).map deg2rad).map
    (fun a => (center_lon + size * Real.cos a, center_lat + size * Real.sin a))

/-- Fuel-bounded variant of the stepping while loop, for reasoning about
non-termination: none means the loop was still running when the fuel ran
out.  For a positive step it agrees with stepList (stepListFuel_complete
below); for a non-positive step it never terminates. -/
def stepListFuel (fuel : ℕ) (stop step x : K) : Option (List K) :=
  match fuel with
  | 0 => if x < stop then none else some []
  | n + 1 =>
    if x < stop then (stepListFuel n stop step (x + step)).map (fun l => x :: l)
    else some []

/-- The lon loop of lines 23-31 runs forever from x when the condition
x < stop holds and the step cannot move x past stop. -/
def lonLoopRunsForever (stop step x : ℚ) : Prop :=
  ∀ fuel : ℕ, stepListFuel fuel stop step x = none

/-- Line 492 of app.py: pd.date_range(end=today, periods=30) - thirty
consecutive days ending at today, as day numbers. -/
def historyDates (today : ℤ) : List ℤ :=
  (List.range 30).map (fun i : ℕ => today - 29 + (i : ℤ))

/-- Line 499: base_temp + np.sin(np.arange(30)/3) * 2 + noise. -/
noncomputable def tempHistory (base : ℝ) (noise : ℕ → ℝ) (i : ℕ) : ℝ :=
  base + Real.sin ((i : ℝ) / 3) * 2 + noise i

/-- Line 500: base_hum + np.cos(np.arange(30)/4) * 3 + noise. -/
noncomputable def humHistory (base : ℝ) (noise : ℕ → ℝ) (i : ℕ) : ℝ :=
  base + Real.cos ((i : ℝ) / 4) * 3 + noise i

/-- Line 501: base_co2 + np.random.normal(0, 5, 30) - noise only, no
periodic term. -/
noncomputable def co2History (base : ℝ) (noise : ℕ → ℝ) (i : ℕ) : ℝ :=
  base + noise i

/-- Line 502: sensor smoke + np.random.randint(-10, 10, 30) - integer noise
only, no periodic term. -/
def smokeHistory (base : ℤ) (noise : ℕ → ℤ) (i : ℕ) : ℤ :=
  base + noise i

/-- The fold performed by pickTop once the accumulator is occupied:
the running best record, replaced only on a strictly larger metric value. -/
def pickTopRun {β : Type} [LinearOrder β] (metric : Record → β) (b : Record)
    (rows : List Record) : Record :=
  rows.foldl (fun acc r => if metric acc < metric r then r else acc) b

/-- Concrete oracle fixtures used by the witness theorems below. -/
def wRing : ℚ × ℚ → List (ℚ × ℚ) := fun _ => [(1, 0), (0, 1)]

/-- Intersection oracle that reports a fully inside hexagon. -/
def wInterAccept : ℚ × ℚ → GeoResult := fun _ => { is_empty := false, area := 1 }

/-- Intersection oracle that reports an empty intersection. -/
def wInterReject : ℚ × ℚ → GeoResult := fun _ => { is_empty := true, area := 0 }

/-- Hexagon-area oracle fixture. -/
def wArea : ℚ × ℚ → ℚ := fun _ => 1

/-- Draw-stream fixture with in-range integer draws. -/
def wDraws : ℕ → Draws := fun _ => { zT := 0, zH := 0, zC := 0, smoke := 50, battery := 60 }

/-- Generation output fixture with one accepted candidate. -/
def wOut : GenOutput := generate [] [(0, 0)] wRing wInterAccept wArea wDraws

/-- Generation output fixture where the only candidate is rejected. -/
def wOutEmpty : GenOutput := generate [(1, 2)] [(0, 0)] wRing wInterReject wArea wDraws

/-- Two records with equal temperature 40 but grid ids 5 and 2, listed with
the larger id first. -/
def cexRowA : Record :=
  { grid_id := 5, temperature := 40, humidity := 50, co2 := 350, smoke := 10,
    battery := 80, center_lat := 0, center_lon := 0 }

/-- Companion record to cexRowA with the smaller grid id. -/
def cexRowB : Record :=
  { grid_id := 2, temperature := 40, humidity := 50, co2 := 350, smoke := 10,
    battery := 80, center_lat := 0, center_lon := 0 }

/-- Record fixture exceeding all three alert thresholds. -/
def wAlertRow : Record :=
  { grid_id := 0, temperature := 40, humidity := 50, co2 := 450, smoke := 80,
    battery := 80, center_lat := 0, center_lon := 0 }

/-
Theorems.
-/

/-- C1: the clipping step at line 44 accepts a candidate exactly when the
intersection is non-degenerate (positive area) and the area ratio strictly
exceeds the 0.5 overlap threshold; an intersection of zero area (mere
touching) is never accepted.  The hypotheses record the geometric facts the
oracle result satisfies: the hexagon area is positive and an empty shapely
intersection has zero area. -/
theorem spec_c1 (inter : GeoResult) (hexArea : ℚ) (hA : 0 < hexArea)
    (hwf : inter.is_empty = true → inter.area = 0) :
    (acceptCell inter hexArea = true ↔
      (0 < inter.area ∧ 1/2 < inter.area / hexArea)) ∧
    (inter.area = 0 → acceptCell inter hexArea = false) := by
  constructor
  · constructor
    · intro hacc
      have h2 : 1/2 < inter.area / hexArea := by
        simp [acceptCell] at hacc
        linarith [hacc.2]
      have hpos : 0 < inter.area / hexArea := lt_trans (by norm_num) h2
      have harea : 0 < inter.area := by
        rcases div_pos_iff.mp hpos with ⟨ha, _⟩ | ⟨_, hb⟩
        · exact ha
        · linarith
      exact ⟨harea, h2⟩
    · rintro ⟨hpos, h2⟩
      have hne : inter.is_empty = false := by
        cases hemp : inter.is_empty
        · rfl
        · have := hwf hemp
          linarith
      simp only [acceptCell, hne, Bool.not_false, Bool.true_and, decide_eq_true_eq]
      linarith
  · intro h0
    simp [acceptCell, h0]

/-- Witness for spec_c1 at a concrete non-empty intersection of area 1 with
hexagon area 1. -/
theorem spec_c1_witness :
    (acceptCell { is_empty := false, area := 1 } 1 = true ↔
      (0 < (1:ℚ) ∧ 1/2 < (1:ℚ) / 1)) ∧
    ((1:ℚ) = 0 → acceptCell { is_empty := false, area := 1 } 1 = false) :=
  spec_c1 { is_empty := false, area := 1 } 1 (by norm_num) (by simp)

/-- The generation invariant holds at the initial accumulator. -/
theorem genInv_init (draws : ℕ → Draws) : GenInv draws genInit := by
  simp [GenInv, genInit]

/-- One loop iteration preserves the generation invariant. -/
theorem genInv_step (ringOf : ℚ × ℚ → List (ℚ × ℚ)) (interOf : ℚ × ℚ → GeoResult)
    (areaOf : ℚ × ℚ → ℚ) (draws : ℕ → Draws) (st : GenAcc) (c : ℚ × ℚ)
    (h : GenInv draws st) : GenInv draws (genStep ringOf interOf areaOf draws st c) := by
  obtain ⟨h1, h2, h3, h4, h5, h6, h7⟩ := h
  by_cases hacc : acceptCell (interOf c) (areaOf c) = true
  · refine ⟨?_, ?_, ?_, ?_, ?_, ?_, ?_⟩ <;>
      simp [genStep, hacc, List.range_succ, h1, h2, h3, h4, h5, h6, h7]
  · refine ⟨?_, ?_, ?_, ?_, ?_, ?_, ?_⟩ <;>
      simp [genStep, hacc, h1, h2, h3, h4, h5, h6, h7]

/-- The whole generation fold preserves the invariant. -/
theorem genInv_foldl (ringOf : ℚ × ℚ → List (ℚ × ℚ)) (interOf : ℚ × ℚ → GeoResult)
    (areaOf : ℚ × ℚ → ℚ) (draws : ℕ → Draws) :
    ∀ (cands : List (ℚ × ℚ)) (st : GenAcc), GenInv draws st →
      GenInv draws (cands.foldl (genStep ringOf interOf areaOf draws) st)
  | [], _, h => h
  | c :: t, st, h =>
    genInv_foldl ringOf interOf areaOf draws t _
      (genInv_step ringOf interOf areaOf draws st c h)

/-- C4: after a generation pass the grid ids of the features form the
contiguous range [0, N) in acceptance order, the DataFrame grid_id column is
the same range in the same order, and every record column has exactly one
entry per cell. -/
theorem spec_c4 (boundary : List (ℚ × ℚ)) (cands : List (ℚ × ℚ))
    (ringOf : ℚ × ℚ → List (ℚ × ℚ)) (interOf : ℚ × ℚ → GeoResult)
    (areaOf : ℚ × ℚ → ℚ) (draws : ℕ → Draws) (out : GenOutput)
    (hout : out = generate boundary cands ringOf interOf areaOf draws) :
    out.features.map (fun f => f.grid_id) = List.range out.features.length ∧
    out.df.grid_id = List.range out.features.length ∧
    out.df.temperature.length = out.features.length ∧
    out.df.humidity.length = out.features.length ∧
    out.df.co2.length = out.features.length ∧
    out.df.smoke.length = out.features.length ∧
    out.df.battery.length = out.features.length ∧
    out.df.center_lat.length = out.features.length ∧
    out.df.center_lon.length = out.features.length := by
  subst hout
  have hinv := genInv_foldl ringOf interOf areaOf draws cands genInit (genInv_init draws)
  obtain ⟨h1, h2, h3, h4, h5, h6, h7⟩ := hinv
  set st := cands.foldl (genStep ringOf interOf areaOf draws) genInit with hst
  have hlen : st.features.length = st.grid_id := by
    have := congrArg List.length h1
    simpa using this
  simp only [generate]
  refine ⟨?_, ?_, ?_, ?_, ?_, ?_, ?_, ?_, ?_⟩ <;>
    simp [← hst, hlen, h1, h2, h3, h4, h5, h6, h7]

/-- Witness for spec_c4 on a concrete one-candidate generation run. -/
theorem spec_c4_witness :
    wOut.features.map (fun f => f.grid_id) = List.range wOut.features.length ∧
    wOut.df.grid_id = List.range wOut.features.length ∧
    wOut.df.temperature.length = wOut.features.length ∧
    wOut.df.humidity.length = wOut.features.length ∧
    wOut.df.co2.length = wOut.features.length ∧
    wOut.df.smoke.length = wOut.features.length ∧
    wOut.df.battery.length = wOut.features.length ∧
    wOut.df.center_lat.length = wOut.features.length ∧
    wOut.df.center_lon.length = wOut.features.length :=
  spec_c4 [] [(0, 0)] wRing wInterAccept wArea wDraws wOut rfl

/-- C3: the synthesized record columns follow the per-cell formulas of
lines 51-55 and 61-65 exactly: temperature, humidity and co2 are the base
value plus the scaled standard-normal draw plus/minus the grid_id modulus
term, rounded to two decimals, and smoke and battery are the integer draws,
which lie in [10,100) and [20,100) respectively; cell g consumes its own
draw tuple (fresh draws per cell). -/
theorem spec_c3 (boundary : List (ℚ × ℚ)) (cands : List (ℚ × ℚ))
    (ringOf : ℚ × ℚ → List (ℚ × ℚ)) (interOf : ℚ × ℚ → GeoResult)
    (areaOf : ℚ × ℚ → ℚ) (draws : ℕ → Draws)
    (hdraws : ∀ g : ℕ, 10 ≤ (draws g).smoke ∧ (draws g).smoke < 100 ∧
      20 ≤ (draws g).battery ∧ (draws g).battery < 100)
    (out : GenOutput) (hout : out = generate boundary cands ringOf interOf areaOf draws) :
    out.df.temperature = (List.range out.features.length).map
      (fun g => round2 (25 + (draws g).zT * 3 + ((g % 5 : ℕ) : ℚ))) ∧
    out.df.humidity = (List.range out.features.length).map
      (fun g => round2 (60 + (draws g).zH * 5 - ((g % 3 : ℕ) : ℚ))) ∧
    out.df.co2 = (List.range out.features.length).map
      (fun g => round2 (350 + (draws g).zC * 10 + ((g % 7 : ℕ) : ℚ) * 5)) ∧
    out.df.smoke = (List.range out.features.length).map (fun g => (draws g).smoke) ∧
    out.df.battery = (List.range out.features.length).map (fun g => (draws g).battery) ∧
    (∀ s ∈ out.df.smoke, 10 ≤ s ∧ s < 100) ∧
    (∀ bt ∈ out.df.battery, 20 ≤ bt ∧ bt < 100) := by
  subst hout
  have hinv := genInv_foldl ringOf interOf areaOf draws cands genInit (genInv_init draws)
  obtain ⟨h1, h2, h3, h4, h5, h6, h7⟩ := hinv
  set st := cands.foldl (genStep ringOf interOf areaOf draws) genInit with hst
  have hlen : st.features.length = st.grid_id := by
    have := congrArg List.length h1
    simpa using this
  simp only [generate]
  refine ⟨?_, ?_, ?_, ?_, ?_, ?_, ?_⟩
  · simp [← hst, hlen, h2]
  · simp [← hst, hlen, h3]
  · simp [← hst, hlen, h4]
  · simp [← hst, hlen, h5]
  · simp [← hst, hlen, h6]
  · intro s hs
    simp only [← hst] at hs
    rw [h5] at hs
    rcases List.mem_map.mp hs with ⟨g, _, hg⟩
    rcases hdraws g with ⟨ha, hb, _, _⟩
    exact ⟨hg ▸ ha, hg ▸ hb⟩
  · intro bt hbt
    simp only [← hst] at hbt
    rw [h6] at hbt
    rcases List.mem_map.mp hbt with ⟨g, _, hg⟩
    rcases hdraws g with ⟨_, _, hc, hd⟩
    exact ⟨hg ▸ hc, hg ▸ hd⟩

/-- The fixture draw stream has all integer draws in range. -/
theorem wDraws_range (g : ℕ) :
    10 ≤ (wDraws g).smoke ∧ (wDraws g).smoke < 100 ∧
    20 ≤ (wDraws g).battery ∧ (wDraws g).battery < 100 := by
  refine ⟨?_, ?_, ?_, ?_⟩ <;> norm_num [wDraws]

/-- Witness for spec_c3 on a concrete one-candidate generation run with the
constant in-range draw stream wDraws. -/
theorem spec_c3_witness :
    wOut.df.temperature = (List.range wOut.features.length).map
      (fun g => round2 (25 + (wDraws g).zT * 3 + ((g % 5 : ℕ) : ℚ))) ∧
    wOut.df.humidity = (List.range wOut.features.length).map
      (fun g => round2 (60 + (wDraws g).zH * 5 - ((g % 3 : ℕ) : ℚ))) ∧
    wOut.df.co2 = (List.range wOut.features.length).map
      (fun g => round2 (350 + (wDraws g).zC * 10 + ((g % 7 : ℕ) : ℚ) * 5)) ∧
    wOut.df.smoke = (List.range wOut.features.length).map (fun g => (wDraws g).smoke) ∧
    wOut.df.battery = (List.range wOut.features.length).map (fun g => (wDraws g).battery) ∧
    (∀ s ∈ wOut.df.smoke, 10 ≤ s ∧ s < 100) ∧
    (∀ bt ∈ wOut.df.battery, 20 ≤ bt ∧ bt < 100) :=
  spec_c3 [] [(0, 0)] wRing wInterAccept wArea wDraws wDraws_range wOut rfl

/-- One loop iteration keeps the geometric components (features, centers,
grid counter) independent of the draw stream. -/
theorem genStep_geom (ringOf : ℚ × ℚ → List (ℚ × ℚ)) (interOf : ℚ × ℚ → GeoResult)
    (areaOf : ℚ × ℚ → ℚ) (d1 d2 : ℕ → Draws) (s1 s2 : GenAcc) (c : ℚ × ℚ)
    (hf : s1.features = s2.features) (hc : s1.centers = s2.centers)
    (hg : s1.grid_id = s2.grid_id) :
    (genStep ringOf interOf areaOf d1 s1 c).features =
      (genStep ringOf interOf areaOf d2 s2 c).features ∧
    (genStep ringOf interOf areaOf d1 s1 c).centers =
      (genStep ringOf interOf areaOf d2 s2 c).centers ∧
    (genStep ringOf interOf areaOf d1 s1 c).grid_id =
      (genStep ringOf interOf areaOf d2 s2 c).grid_id := by
  by_cases hacc : acceptCell (interOf c) (areaOf c) = true <;>
    simp [genStep, hacc, hf, hc, hg]

/-- The generation fold keeps the geometric components independent of the
draw stream. -/
theorem genFold_geom (ringOf : ℚ × ℚ → List (ℚ × ℚ)) (interOf : ℚ × ℚ → GeoResult)
    (areaOf : ℚ × ℚ → ℚ) (d1 d2 : ℕ → Draws) :
    ∀ (cands : List (ℚ × ℚ)) (s1 s2 : GenAcc),
      s1.features = s2.features → s1.centers = s2.centers → s1.grid_id = s2.grid_id →
      (cands.foldl (genStep ringOf interOf areaOf d1) s1).features =
        (cands.foldl (genStep ringOf interOf areaOf d2) s2).features ∧
      (cands.foldl (genStep ringOf interOf areaOf d1) s1).centers =
        (cands.foldl (genStep ringOf interOf areaOf d2) s2).centers ∧
      (cands.foldl (genStep ringOf interOf areaOf d1) s1).grid_id =
        (cands.foldl (genStep ringOf interOf areaOf d2) s2).grid_id
  | [], _, _, hf, hc, hg => ⟨hf, hc, hg⟩
  | c :: t, s1, s2, hf, hc, hg => by
    obtain ⟨hf2, hc2, hg2⟩ :=
      genStep_geom ringOf interOf areaOf d1 d2 s1 s2 c hf hc hg
    exact genFold_geom ringOf interOf areaOf d1 d2 t _ _ hf2 hc2 hg2

/-- C6: two generation runs over the same boundary, candidates and geometry
oracles but arbitrary (different) random draw streams produce identical
features (hexagon rings, ids, centers), identical id and center columns and
the identical boundary ring: the geometry pipeline is deterministic and only
the metric values depend on the randomness. -/
theorem spec_c6 (boundary : List (ℚ × ℚ)) (cands : List (ℚ × ℚ))
    (ringOf : ℚ × ℚ → List (ℚ × ℚ)) (interOf : ℚ × ℚ → GeoResult)
    (areaOf : ℚ × ℚ → ℚ) (d1 d2 : ℕ → Draws) :
    (generate boundary cands ringOf interOf areaOf d1).features =
      (generate boundary cands ringOf interOf areaOf d2).features ∧
    (generate boundary cands ringOf interOf areaOf d1).df.grid_id =
      (generate boundary cands ringOf interOf areaOf d2).df.grid_id ∧
    (generate boundary cands ringOf interOf areaOf d1).df.center_lat =
      (generate boundary cands ringOf interOf areaOf d2).df.center_lat ∧
    (generate boundary cands ringOf interOf areaOf d1).df.center_lon =
      (generate boundary cands ringOf interOf areaOf d2).df.center_lon ∧
    (generate boundary cands ringOf interOf areaOf d1).boundary =
      (generate boundary cands ringOf interOf areaOf d2).boundary := by
  obtain ⟨hf, hc, hg⟩ :=
    genFold_geom ringOf interOf areaOf d1 d2 cands genInit genInit rfl rfl rfl
  simp only [generate]
  exact ⟨hf, by rw [hg], by rw [hc], by rw [hc], trivial⟩

/-- The generation fold is the identity when every candidate is rejected. -/
theorem genFold_reject (ringOf : ℚ × ℚ → List (ℚ × ℚ)) (interOf : ℚ × ℚ → GeoResult)
    (areaOf : ℚ × ℚ → ℚ) (draws : ℕ → Draws) :
    ∀ (cands : List (ℚ × ℚ)) (st : GenAcc),
      (∀ c ∈ cands, acceptCell (interOf c) (areaOf c) = false) →
      cands.foldl (genStep ringOf interOf areaOf draws) st = st
  | [], _, _ => rfl
  | c :: t, st, h => by
    have hc : acceptCell (interOf c) (areaOf c) = false := h c (List.mem_cons_self c t)
    have hstep : genStep ringOf interOf areaOf draws st c = st := by
      simp [genStep, hc]
    rw [List.foldl_cons, hstep]
    exact genFold_reject ringOf interOf areaOf draws t st
      (fun x hx => h x (List.mem_cons_of_mem c hx))

/-- C10: when no candidate passes the overlap test, generation still returns
a well-formed empty result: an empty feature collection, a record table with
all eight columns present but empty, and the input boundary ring unchanged. -/
theorem spec_c10 (boundary : List (ℚ × ℚ)) (cands : List (ℚ × ℚ))
    (ringOf : ℚ × ℚ → List (ℚ × ℚ)) (interOf : ℚ × ℚ → GeoResult)
    (areaOf : ℚ × ℚ → ℚ) (draws : ℕ → Draws)
    (hrej : ∀ c ∈ cands, acceptCell (interOf c) (areaOf c) = false)
    (out : GenOutput) (hout : out = generate boundary cands ringOf interOf areaOf draws) :
    out.features = [] ∧ out.df.grid_id = [] ∧ out.df.temperature = [] ∧
    out.df.humidity = [] ∧ out.df.co2 = [] ∧ out.df.smoke = [] ∧
    out.df.battery = [] ∧ out.df.center_lat = [] ∧ out.df.center_lon = [] ∧
    out.boundary = boundary := by
  subst hout
  have hfold := genFold_reject ringOf interOf areaOf draws cands genInit hrej
  simp only [generate, hfold]
  simp [genInit]

/-- Witness for spec_c10 on a concrete run whose single candidate has an
empty intersection. -/
theorem spec_c10_witness :
    wOutEmpty.features = [] ∧ wOutEmpty.df.grid_id = [] ∧
    wOutEmpty.df.temperature = [] ∧ wOutEmpty.df.humidity = [] ∧
    wOutEmpty.df.co2 = [] ∧ wOutEmpty.df.smoke = [] ∧
    wOutEmpty.df.battery = [] ∧ wOutEmpty.df.center_lat = [] ∧
    wOutEmpty.df.center_lon = [] ∧ wOutEmpty.boundary = [(1, 2)] :=
  spec_c10 [(1, 2)] [(0, 0)] wRing wInterReject wArea wDraws
    (fun c _ => rfl) wOutEmpty rfl

/-- Folding the pickTop step from an occupied accumulator is pickTopRun. -/
theorem pickTop_fold_some {β : Type} [LinearOrder β] (metric : Record → β)
    (t : List Record) :
    ∀ b : Record,
      t.foldl
        (fun acc r =>
          match acc with
          | none => some r
          | some b2 => if metric b2 < metric r then some r else some b2)
        (some b) = some (pickTopRun metric b t) := by
  induction t with
  | nil => intro b; rfl
  | cons r t ih =>
    intro b
    by_cases h : metric b < metric r
    · simp only [List.foldl_cons, pickTopRun, if_pos h]
      exact ih r
    · simp only [List.foldl_cons, pickTopRun, if_neg h]
      exact ih b

/-- pickTop on a non-empty list is pickTopRun started at the head. -/
theorem pickTop_eq_run {β : Type} [LinearOrder β] (metric : Record → β)
    (r : Record) (t : List Record) :
    pickTop metric (r :: t) = some (pickTopRun metric r t) := by
  simp only [pickTop, List.foldl_cons]
  exact pickTop_fold_some metric t r

/-- pickTopRun returns an element of the candidates (or the seed) attaining
the maximum of the metric. -/
theorem pickTopRun_max {β : Type} [LinearOrder β] (metric : Record → β)
    (t : List Record) :
    ∀ b : Record,
      (pickTopRun metric b t = b ∨ pickTopRun metric b t ∈ t) ∧
      metric b ≤ metric (pickTopRun metric b t) ∧
      ∀ r ∈ t, metric r ≤ metric (pickTopRun metric b t) := by
  induction t with
  | nil => intro b; exact ⟨Or.inl rfl, le_refl _, by simp⟩
  | cons r t ih =>
    intro b
    by_cases h : metric b < metric r
    · have hstep : pickTopRun metric b (r :: t) = pickTopRun metric r t := by
        simp only [pickTopRun, List.foldl_cons, if_pos h]
      obtain ⟨hm, hb, hall⟩ := ih r
      refine ⟨?_, ?_, ?_⟩
      · rw [hstep]
        rcases hm with h1 | h1
        · exact Or.inr (by rw [h1]; exact List.mem_cons_self r t)
        · exact Or.inr (List.mem_cons_of_mem r h1)
      · rw [hstep]
        exact le_trans (le_of_lt h) hb
      · intro x hx
        rw [hstep]
        rcases List.mem_cons.mp hx with h1 | h1
        · exact h1 ▸ hb
        · exact hall x h1
    · have hstep : pickTopRun metric b (r :: t) = pickTopRun metric b t := by
        simp only [pickTopRun, List.foldl_cons, if_neg h]
      obtain ⟨hm, hb, hall⟩ := ih b
      push_neg at h
      refine ⟨?_, ?_, ?_⟩
      · rw [hstep]
        rcases hm with h1 | h1
        · exact Or.inl h1
        · exact Or.inr (List.mem_cons_of_mem r h1)
      · rw [hstep]
        exact hb
      · intro x hx
        rw [hstep]
        rcases List.mem_cons.mp hx with h1 | h1
        · exact h1 ▸ le_trans h hb
        · exact hall x h1

/-- On a candidate list sorted by strictly increasing grid_id (with the seed
below all candidates), pickTopRun has the least grid_id among the records
tying the maximum: folding replaces the best only on a strictly larger
metric, so the first occurrence of the maximum wins. -/
theorem pickTopRun_first {β : Type} [LinearOrder β] (metric : Record → β)
    (t : List Record) :
    ∀ b : Record,
      t.Pairwise (fun x y => x.grid_id < y.grid_id) →
      (∀ x ∈ t, b.grid_id < x.grid_id) →
      ∀ r : Record, (r = b ∨ r ∈ t) → metric r = metric (pickTopRun metric b t) →
        (pickTopRun metric b t).grid_id ≤ r.grid_id := by
  induction t with
  | nil =>
    intro b _ _ r hr _
    rcases hr with h1 | h1
    · subst h1
      simp [pickTopRun]
    · simp at h1
  | cons r0 t ih =>
    intro b hpw hb r hr hmet
    obtain ⟨hhead, htail⟩ := List.pairwise_cons.mp hpw
    by_cases h : metric b < metric r0
    · have hstep : pickTopRun metric b (r0 :: t) = pickTopRun metric r0 t := by
        simp only [pickTopRun, List.foldl_cons, if_pos h]
      rw [hstep] at hmet ⊢
      obtain ⟨_, hge, _⟩ := pickTopRun_max metric t r0
      rcases hr with h1 | h1
      · subst h1
        exact absurd hmet (ne_of_lt (lt_of_lt_of_le h hge))
      · rcases List.mem_cons.mp h1 with h2 | h2
        · subst h2
          exact ih r htail hhead r (Or.inl rfl) hmet
        · exact ih r0 htail hhead r (Or.inr h2) hmet
    · have hstep : pickTopRun metric b (r0 :: t) = pickTopRun metric b t := by
        simp only [pickTopRun, List.foldl_cons, if_neg h]
      rw [hstep] at hmet ⊢
      push_neg at h
      have hb2 : ∀ x ∈ t, b.grid_id < x.grid_id :=
        fun x hx => hb x (List.mem_cons_of_mem r0 hx)
      rcases hr with h1 | h1
      · exact ih b htail hb2 r (Or.inl h1) hmet
      · rcases List.mem_cons.mp h1 with h2 | h2
        · subst h2
          obtain ⟨_, hge, _⟩ := pickTopRun_max metric t b
          have hbe : metric b = metric (pickTopRun metric b t) :=
            le_antisymm hge (by rw [← hmet]; exact h)
          have hresb := ih b htail hb2 b (Or.inl rfl) hbe
          have hlt := hb r (List.mem_cons_self r t)
          omega
        · exact ih b htail hb2 r (Or.inr h2) hmet

/-- For a non-empty sorted candidate list, pickTop returns a matched record
attaining the maximum metric with the least grid_id among the ties. -/
theorem scan_top_spec {β : Type} [LinearOrder β] (metric : Record → β)
    (l : List Record) (hpw : l.Pairwise (fun x y => x.grid_id < y.grid_id))
    (hne : l ≠ []) :
    ∃ b : Record, pickTop metric l = some b ∧ b ∈ l ∧
      (∀ r ∈ l, metric r ≤ metric b) ∧
      (∀ r ∈ l, metric r = metric b → b.grid_id ≤ r.grid_id) := by
  cases l with
  | nil => exact absurd rfl hne
  | cons r0 t =>
    obtain ⟨hhead, htail⟩ := List.pairwise_cons.mp hpw
    refine ⟨pickTopRun metric r0 t, pickTop_eq_run metric r0 t, ?_, ?_, ?_⟩
    · obtain ⟨hm, _, _⟩ := pickTopRun_max metric t r0
      rcases hm with h1 | h1
      · exact (by rw [h1]; exact List.mem_cons_self r0 t)
      · exact List.mem_cons_of_mem r0 h1
    · intro r hr
      obtain ⟨_, hge, hall⟩ := pickTopRun_max metric t r0
      rcases List.mem_cons.mp hr with h1 | h1
      · exact h1 ▸ hge
      · exact hall r h1
    · intro r hr hmet
      refine pickTopRun_first metric t r0 htail hhead r ?_ hmet
      rcases List.mem_cons.mp hr with h1 | h1
      · exact Or.inl h1
      · exact Or.inr h1

/-- C5 counterexample: on a table holding grid ids 5 then 2 with equal
temperatures 40 (and no co2 or smoke match), the scan reports the top
sensor as grid_id 5 - the first occurrence in table order - not the lowest
grid_id 2 the claim requires for ties. -/
theorem spec_c5_counterexample :
    scanAlerts [cexRowA, cexRowB] = [Alert.temp 2 5 40] ∧
    Alert.temp 2 5 40 ≠ Alert.temp 2 2 40 := by
  constructor
  · rfl
  · decide

/-- C5 amended: the scan runs the three independent threshold scans
(temperature above 32, co2 above 400, smoke above 70); each scan with at
least one match contributes one alert carrying the matched count and the
grid_id and value of the record attaining the maximum of that metric, with
ties broken by the first occurrence in table order - which is the lowest
grid_id whenever the table is sorted by strictly increasing grid_id, as all
tables produced by generation are; if no scan matches, the result is exactly
one nominal alert. -/
theorem spec_c5_amended (rows : List Record)
    (hsort : rows.Pairwise (fun x y => x.grid_id < y.grid_id)) :
    (highTemp rows = [] ∧ highCo2 rows = [] ∧ highSmoke rows = [] →
      scanAlerts rows = [Alert.nominal]) ∧
    (highTemp rows ≠ [] → ∃ b : Record, b ∈ highTemp rows ∧
      Alert.temp (highTemp rows).length b.grid_id b.temperature ∈ scanAlerts rows ∧
      (∀ r ∈ highTemp rows, r.temperature ≤ b.temperature) ∧
      (∀ r ∈ highTemp rows, r.temperature = b.temperature → b.grid_id ≤ r.grid_id)) ∧
    (highCo2 rows ≠ [] → ∃ b : Record, b ∈ highCo2 rows ∧
      Alert.co2 (highCo2 rows).length b.grid_id b.co2 ∈ scanAlerts rows ∧
      (∀ r ∈ highCo2 rows, r.co2 ≤ b.co2) ∧
      (∀ r ∈ highCo2 rows, r.co2 = b.co2 → b.grid_id ≤ r.grid_id)) ∧
    (highSmoke rows ≠ [] → ∃ b : Record, b ∈ highSmoke rows ∧
      Alert.smoke (highSmoke rows).length b.grid_id b.smoke ∈ scanAlerts rows ∧
      (∀ r ∈ highSmoke rows, r.smoke ≤ b.smoke) ∧
      (∀ r ∈ highSmoke rows, r.smoke = b.smoke → b.grid_id ≤ r.grid_id)) := by
  have hpwT : (highTemp rows).Pairwise (fun x y => x.grid_id < y.grid_id) :=
    List.Pairwise.filter _ hsort
  have hpwC : (highCo2 rows).Pairwise (fun x y => x.grid_id < y.grid_id) :=
    List.Pairwise.filter _ hsort
  have hpwS : (highSmoke rows).Pairwise (fun x y => x.grid_id < y.grid_id) :=
    List.Pairwise.filter _ hsort
  refine ⟨?_, ?_, ?_, ?_⟩
  · rintro ⟨h1, h2, h3⟩
    simp [scanAlerts, h1, h2, h3, pickTop]
  · intro hne
    obtain ⟨b, hpick, hmem, hmax, htie⟩ :=
      scan_top_spec (fun r => r.temperature) (highTemp rows) hpwT hne
    refine ⟨b, hmem, ?_, hmax, htie⟩
    simp [scanAlerts, hpick]
  · intro hne
    obtain ⟨b, hpick, hmem, hmax, htie⟩ :=
      scan_top_spec (fun r => r.co2) (highCo2 rows) hpwC hne
    refine ⟨b, hmem, ?_, hmax, htie⟩
    simp [scanAlerts, hpick]
  · intro hne
    obtain ⟨b, hpick, hmem, hmax, htie⟩ :=
      scan_top_spec (fun r => r.smoke) (highSmoke rows) hpwS hne
    refine ⟨b, hmem, ?_, hmax, htie⟩
    simp [scanAlerts, hpick]

/-- Witness for spec_c5_amended on the singleton table of a record that
exceeds all three thresholds. -/
theorem spec_c5_witness :
    (highTemp [wAlertRow] = [] ∧ highCo2 [wAlertRow] = [] ∧ highSmoke [wAlertRow] = [] →
      scanAlerts [wAlertRow] = [Alert.nominal]) ∧
    (highTemp [wAlertRow] ≠ [] → ∃ b : Record, b ∈ highTemp [wAlertRow] ∧
      Alert.temp (highTemp [wAlertRow]).length b.grid_id b.temperature ∈
        scanAlerts [wAlertRow] ∧
      (∀ r ∈ highTemp [wAlertRow], r.temperature ≤ b.temperature) ∧
      (∀ r ∈ highTemp [wAlertRow], r.temperature = b.temperature →
        b.grid_id ≤ r.grid_id)) ∧
    (highCo2 [wAlertRow] ≠ [] → ∃ b : Record, b ∈ highCo2 [wAlertRow] ∧
      Alert.co2 (highCo2 [wAlertRow]).length b.grid_id b.co2 ∈ scanAlerts [wAlertRow] ∧
      (∀ r ∈ highCo2 [wAlertRow], r.co2 ≤ b.co2) ∧
      (∀ r ∈ highCo2 [wAlertRow], r.co2 = b.co2 → b.grid_id ≤ r.grid_id)) ∧
    (highSmoke [wAlertRow] ≠ [] → ∃ b : Record, b ∈ highSmoke [wAlertRow] ∧
      Alert.smoke (highSmoke [wAlertRow]).length b.grid_id b.smoke ∈
        scanAlerts [wAlertRow] ∧
      (∀ r ∈ highSmoke [wAlertRow], r.smoke ≤ b.smoke) ∧
      (∀ r ∈ highSmoke [wAlertRow], r.smoke = b.smoke → b.grid_id ≤ r.grid_id)) :=
  spec_c5_amended [wAlertRow] (List.pairwise_singleton _ _)

/-- With a non-positive step and the loop condition initially true, the
stepping loop never terminates: the fuel-bounded run reports none for every
fuel bound (x + step ≤ x keeps the condition true forever). -/
theorem stepListFuel_none (stop step : ℚ) (hstep : step ≤ 0) :
    ∀ (fuel : ℕ) (x : ℚ), x < stop → stepListFuel fuel stop step x = none := by
  intro fuel
  induction fuel with
  | zero =>
    intro x hx
    simp [stepListFuel, hx]
  | succ n ih =>
    intro x hx
    have hx2 : x + step < stop := by linarith
    simp [stepListFuel, hx, ih (x + step) hx2]

/-- With a positive step, the fuel-bounded loop run with fuel equal to the
iteration count terminates and agrees with stepList: the fuel model is a
faithful rendering of the same while loop. -/
theorem stepListFuel_complete (stop step : ℚ) (hstep : 0 < step) :
    ∀ (n : ℕ) (x : ℚ), (⌈(stop - x) / step⌉).toNat = n →
      stepListFuel n stop step x = some (stepList stop step hstep x) := by
  intro n
  induction n with
  | zero =>
    intro x hn
    have hle : (stop - x) / step ≤ 0 := by
      by_contra hc
      push_neg at hc
      have h1 : 0 < ⌈(stop - x) / step⌉ := Int.ceil_pos.mpr hc
      omega
    have hxs : ¬ x < stop := by
      intro hlt
      have : 0 < (stop - x) / step := div_pos (by linarith) hstep
      linarith
    rw [stepList]
    simp [stepListFuel, hxs]
  | succ n ih =>
    intro x hn
    have hceil : 0 < ⌈(stop - x) / step⌉ := by omega
    have hpos : 0 < (stop - x) / step := Int.ceil_pos.mp hceil
    have hlt : x < stop := by
      rcases div_pos_iff.mp hpos with ⟨h1, _⟩ | ⟨_, h2⟩
      · linarith
      · linarith
    have hkey : (stop - (x + step)) / step = (stop - x) / step - 1 := by
      rw [show stop - (x + step) = (stop - x) - step from by ring, sub_div,
        div_self (ne_of_gt hstep)]
    have hnext : (⌈(stop - (x + step)) / step⌉).toNat = n := by
      rw [hkey]
      have h1 := Int.ceil_sub_int ((stop - x) / step) 1
      have h2 : ⌈(stop - x) / step - 1⌉ = ⌈(stop - x) / step⌉ - 1 := by
        simpa using h1
      omega
    rw [stepList]
    simp [stepListFuel, hlt, ih (x + step) hnext]

/-- C7 counterexample: at hex_size = 0 over a bounding box with
min_lon = 0 and max_lon = 10 the column loop runs forever (the fuel-bounded
run reports none for every fuel), so the catalog build cannot fail fast with
InvalidParameterError: the source contains no hex_size validation at all. -/
theorem spec_c7_counterexample : lonLoopRunsForever 10 0 0 :=
  fun fuel => stepListFuel_none 10 0 le_rfl fuel 0 (by norm_num)

/-- C7 amended: the source performs no hex_size validation; for any
non-positive step (hex_width = 1.5 * hex_size with hex_size ≤ 0) and any
start strictly below the stop bound, the column loop of lines 23-31 never
terminates - no InvalidParameterError is raised and no cell or record is
ever produced, the request simply hangs. -/
theorem spec_c7_amended (stop step x : ℚ) (hstep : step ≤ 0) (hx : x < stop) :
    lonLoopRunsForever stop step x :=
  fun fuel => stepListFuel_none stop step hstep fuel x hx

/-- Witness for spec_c7_amended: with step 0 from start 0 towards stop 10,
five fuel units are exhausted without termination. -/
theorem spec_c7_witness : stepListFuel 5 (10 : ℚ) 0 0 = none :=
  spec_c7_amended 10 0 0 le_rfl (by norm_num) 5

/-- C8 counterexample: resolving a selection against an empty table (any
table not containing the id behaves the same) raises IndexError - the
uncaught pandas error of .iloc[0] on an empty selection - and not the
SelectionNotFoundError the claim requires; the callback crashes. -/
theorem spec_c8_counterexample :
    resolveSelection [] 0 = Except.error LookupError.indexError ∧
    (Except.error LookupError.indexError : Except LookupError Record) ≠
      Except.error LookupError.selectionNotFound := by
  constructor
  · rfl
  · intro h
    injection h with h2
    exact LookupError.noConfusion h2

/-- C8 amended: selection resolution returns the first record whose grid_id
matches the selected id when one exists (the third conjunct: for any
decomposition of the table into a prefix without the id followed by a
matching record, that record is returned with Except.ok); when the id is
absent from the table it fails with the uncaught IndexError of .iloc[0]
(the callback crashes); no code path signals SelectionNotFoundError. -/
theorem spec_c8_amended (rows : List Record) (gid : ℕ) :
    (∀ r : Record, resolveSelection rows gid = Except.ok r →
      r ∈ rows ∧ r.grid_id = gid) ∧
    ((∀ r ∈ rows, r.grid_id ≠ gid) →
      resolveSelection rows gid = Except.error LookupError.indexError) ∧
    (∀ (l1 : List Record) (r : Record) (l2 : List Record),
      rows = l1 ++ r :: l2 → r.grid_id = gid → (∀ x ∈ l1, x.grid_id ≠ gid) →
      resolveSelection rows gid = Except.ok r) ∧
    resolveSelection rows gid ≠ Except.error LookupError.selectionNotFound := by
  refine ⟨?_, ?_, ?_, ?_⟩
  · intro r h
    simp only [resolveSelection] at h
    cases hh : (rows.filter (fun r2 => decide (r2.grid_id = gid))).head? with
    | none => rw [hh] at h; exact absurd h (by simp)
    | some a =>
      rw [hh] at h
      simp only [Except.ok.injEq] at h
      have hmem : a ∈ rows.filter (fun r2 => decide (r2.grid_id = gid)) :=
        List.mem_of_mem_head? (by rw [hh]; rfl)
      have h2 := List.mem_filter.mp hmem
      rw [← h]
      exact ⟨h2.1, of_decide_eq_true h2.2⟩
  · intro hall
    have hnil : rows.filter (fun r2 => decide (r2.grid_id = gid)) = [] := by
      rw [List.filter_eq_nil_iff]
      intro r hr
      simpa using hall r hr
    simp [resolveSelection, hnil]
  · intro l1 r l2 hrows hr hl1
    subst hrows
    have hfil : (l1 ++ r :: l2).filter (fun r2 => decide (r2.grid_id = gid)) =
        r :: l2.filter (fun r2 => decide (r2.grid_id = gid)) := by
      rw [List.filter_append]
      have h1 : l1.filter (fun r2 => decide (r2.grid_id = gid)) = [] := by
        rw [List.filter_eq_nil_iff]
        intro x hx
        simpa using hl1 x hx
      rw [h1, List.nil_append, List.filter_cons_of_pos (by simpa using hr)]
    simp [resolveSelection, hfil]
  · simp only [resolveSelection]
    cases hh : (rows.filter (fun r2 => decide (r2.grid_id = gid))).head? with
    | none =>
      intro h
      injection h with h2
      exact LookupError.noConfusion h2
    | some a => simp

/-- Witness for spec_c8_amended: the empty table resolves id 5 to the
IndexError crash, and the singleton table holding grid id 2 resolves id 2
to that record with Except.ok. -/
theorem spec_c8_witness :
    resolveSelection [] 5 = Except.error LookupError.indexError ∧
    resolveSelection [cexRowB] 2 = Except.ok cexRowB :=
  ⟨(spec_c8_amended [] 5).2.1 (by simp),
   (spec_c8_amended [cexRowB] 2).2.2.1 [] cexRowB [] rfl (by decide) (by simp)⟩

/-- C9 counterexample: with the noise stream zeroed, the 30-sample co2
history is constant at the base value - the co2 series has no periodic
sin/cos term at all, contradicting the claim that every metric series
carries a periodic term with a distinct period. -/
theorem spec_c9_counterexample :
    (List.range 30).map (co2History 350 (fun _ => 0)) =
      List.replicate 30 (350 : ℝ) := by
  have h : ∀ i ∈ List.range 30, co2History 350 (fun _ => 0) i = (350 : ℝ) := by
    intro i _
    simp [co2History]
  rw [List.map_congr_left h]
  simp

/-- C9 amended: the history expansion produces exactly 30 entries in
strictly ascending date order ending at today; temperature and humidity
carry the periodic terms 2 * sin(i/3) and 3 * cos(i/4) on top of the base
value and the per-day noise, while the co2 and smoke series are base value
plus noise only, with no periodic term. -/
theorem spec_c9_amended (today : ℤ) (baseT baseH baseC : ℝ) (baseS : ℤ)
    (nT nH nC : ℕ → ℝ) (nS : ℕ → ℤ) :
    (historyDates today).length = 30 ∧
    (historyDates today).Pairwise (fun a b => a < b) ∧
    (historyDates today).getLast? = some today ∧
    (∀ i : ℕ, tempHistory baseT nT i - nT i - baseT = 2 * Real.sin ((i : ℝ) / 3)) ∧
    (∀ i : ℕ, humHistory baseH nH i - nH i - baseH = 3 * Real.cos ((i : ℝ) / 4)) ∧
    (∀ i : ℕ, co2History baseC nC i - nC i - baseC = 0) ∧
    (∀ i : ℕ, smokeHistory baseS nS i - nS i - baseS = 0) := by
  refine ⟨?_, ?_, ?_, ?_, ?_, ?_, ?_⟩
  · rw [historyDates, List.length_map, List.length_range]
  · rw [historyDates, List.pairwise_map]
    refine (List.pairwise_lt_range 30).imp ?_
    intro a b hab
    have hc : (a : ℤ) < (b : ℤ) := by exact_mod_cast hab
    linarith
  · rw [historyDates, List.getLast?_map,
      show (List.range 30).getLast? = some 29 from by decide]
    simp
  · intro i
    simp only [tempHistory]
    ring
  · intro i
    simp only [humHistory]
    ring
  · intro i
    simp only [co2History]
    ring
  · intro i
    simp only [smokeHistory]
    ring

/-- Closed form of the stepping while loop: for a positive step it emits
exactly the arithmetic progression x, x + step, x + 2 step, ... whose length
is the ceiling of the remaining distance divided by the step. -/
theorem stepList_closed [FloorRing K] (stop step : K) (hstep : 0 < step) :
    ∀ (n : ℕ) (x : K), (⌈(stop - x) / step⌉).toNat = n →
      stepList stop step hstep x =
        (List.range n).map (fun k : ℕ => x + (k : K) * step) := by
  intro n
  induction n with
  | zero =>
    intro x hn
    have hle : (stop - x) / step ≤ 0 := by
      by_contra hc
      push_neg at hc
      have h1 : 0 < ⌈(stop - x) / step⌉ := Int.ceil_pos.mpr hc
      omega
    have hxs : ¬ x < stop := by
      intro hlt
      have : 0 < (stop - x) / step := div_pos (by linarith) hstep
      linarith
    rw [stepList]
    simp [hxs]
  | succ n ih =>
    intro x hn
    have hceil : 0 < ⌈(stop - x) / step⌉ := by omega
    have hpos : 0 < (stop - x) / step := Int.ceil_pos.mp hceil
    have hlt : x < stop := by
      rcases div_pos_iff.mp hpos with ⟨h1, _⟩ | ⟨_, h2⟩
      · linarith
      · linarith
    have hkey : (stop - (x + step)) / step = (stop - x) / step - 1 := by
      rw [show stop - (x + step) = (stop - x) - step from by ring, sub_div,
        div_self (ne_of_gt hstep)]
    have hnext : (⌈(stop - (x + step)) / step⌉).toNat = n := by
      rw [hkey, Int.ceil_sub_one]
      omega
    rw [stepList]
    simp only [hlt, dif_pos]
    rw [ih (x + step) hnext, List.range_succ_eq_map, List.map_cons, List.map_map]
    have hfun : ((fun k : ℕ => x + (k : K) * step) ∘ Nat.succ) =
        (fun k : ℕ => (x + step) + (k : K) * step) := by
      funext k
      simp only [Function.comp, Nat.succ_eq_add_one]
      push_cast
      ring
    rw [hfun]
    simp

/-- Closed form of the nested candidate loops: column c (0-based, counted
from the starting column index col) sits at longitude lon + c * w and emits
one center per vertical step r at latitude minLat + r * h plus the
odd-column shift of half the vertical pitch. -/
theorem hexCentersAux_closed [FloorRing K] (stopLon stopLat w h : K)
    (hw : 0 < w) (hh : 0 < h) (minLat : K) :
    ∀ (n : ℕ) (col : ℕ) (lon : K), (⌈(stopLon - lon) / w⌉).toNat = n →
      hexCentersAux stopLon stopLat w h hw hh minLat col lon =
        (List.range n).flatMap (fun c : ℕ =>
          (List.range ((⌈(stopLat - minLat) / h⌉).toNat)).map (fun r : ℕ =>
            (lon + (c : K) * w, minLat + (r : K) * h + colShift h (col + c)))) := by
  intro n
  induction n with
  | zero =>
    intro col lon hn
    have hle : (stopLon - lon) / w ≤ 0 := by
      by_contra hc
      push_neg at hc
      have h1 : 0 < ⌈(stopLon - lon) / w⌉ := Int.ceil_pos.mpr hc
      omega
    have hxs : ¬ lon < stopLon := by
      intro hlt
      have : 0 < (stopLon - lon) / w := div_pos (by linarith) hw
      linarith
    rw [hexCentersAux]
    simp [hxs]
  | succ n ih =>
    intro col lon hn
    have hceil : 0 < ⌈(stopLon - lon) / w⌉ := by omega
    have hpos : 0 < (stopLon - lon) / w := Int.ceil_pos.mp hceil
    have hlt : lon < stopLon := by
      rcases div_pos_iff.mp hpos with ⟨h1, _⟩ | ⟨_, h2⟩
      · linarith
      · linarith
    have hkey : (stopLon - (lon + w)) / w = (stopLon - lon) / w - 1 := by
      rw [show stopLon - (lon + w) = (stopLon - lon) - w from by ring, sub_div,
        div_self (ne_of_gt hw)]
    have hnext : (⌈(stopLon - (lon + w)) / w⌉).toNat = n := by
      rw [hkey, Int.ceil_sub_one]
      omega
    rw [hexCentersAux]
    simp only [hlt, dif_pos]
    rw [stepList_closed stopLat h hh ((⌈(stopLat - minLat) / h⌉).toNat) minLat rfl,
      ih (col + 1) (lon + w) hnext, List.map_map, List.range_succ_eq_map,
      List.flatMap_cons, List.flatMap_map]
    congr 1
    · apply List.map_congr_left
      intro r _
      simp
    · congr 1
      funext c
      apply List.map_congr_left
      intro r _
      simp only [Prod.mk.injEq]
      constructor
      · push_cast
        ring
      · have h2 : (col + 1) + c = col + (c + 1) := by omega
        rw [h2, Nat.succ_eq_add_one]

/-- The distance from a hexagon center to a vertex placed at angle a is the
circumradius. -/
theorem hexVertexDist (cx cy s a : ℝ) :
    (cx + s * Real.cos a - cx) ^ 2 + (cy + s * Real.sin a - cy) ^ 2 = s ^ 2 := by
  have h : (cx + s * Real.cos a - cx) ^ 2 + (cy + s * Real.sin a - cy) ^ 2 =
      s ^ 2 * (Real.sin a ^ 2 + Real.cos a ^ 2) := by ring
  rw [h, Real.sin_sq_add_cos_sq, mul_one]

/-- C2: with horizontal pitch 1.5 * hex_size and vertical pitch
sqrt(3) * hex_size, the candidate centers are generated column-major:
column c sits at min_lon + c * (1.5 * hex_size), one column per loop step
while the longitude stays below max_lon + 1.5 * hex_size; within a column
row r sits at min_lat + r * (sqrt(3) * hex_size) while the latitude stays
below max_lat + sqrt(3) * hex_size, and odd-indexed columns are shifted up
by half the vertical pitch; the hexagon ring of any cell consists of the
six vertices at angles 0, 60, ..., 300 degrees (k * pi / 3 radians) at
distance hex_size from the center, with the 0 degree vertex repeated at the
end to close the ring. -/
theorem spec_c2 (minLon minLat maxLon maxLat size lon lat : ℝ) (hsize : 0 < size) :
    gridCenters minLon minLat maxLon maxLat size hsize =
      (List.range ((⌈((maxLon + 1.5 * size) - minLon) / (1.5 * size)⌉).toNat)).flatMap
        (fun c : ℕ =>
          (List.range ((⌈((maxLat + Real.sqrt 3 * size) - minLat) /
              (Real.sqrt 3 * size)⌉).toNat)).map (fun r : ℕ =>
            (minLon + (c : ℝ) * (1.5 * size),
             minLat + (r : ℝ) * (Real.sqrt 3 * size) +
               (if c % 2 = 1 then (Real.sqrt 3 * size) / 2 else 0)))) ∧
    hexagon_flat lon lat size =
      ((List.range 6).map (fun k : ℕ =>
        (lon + size * Real.cos ((k : ℝ) * (Real.pi / 3)),
         lat + size * Real.sin ((k : ℝ) * (Real.pi / 3))))) ++
        [(lon + size * Real.cos 0, lat + size * Real.sin 0)] ∧
    (hexagon_flat lon lat size).getLast? = (hexagon_flat lon lat size).head? ∧
    (∀ p ∈ hexagon_flat lon lat size,
      (p.1 - lon) ^ 2 + (p.2 - lat) ^ 2 = size ^ 2) := by
  refine ⟨?_, ?_, ?_, ?_⟩
  · rw [gridCenters, hexCentersAux_closed (maxLon + 1.5 * size)
      (maxLat + Real.sqrt 3 * size) (1.5 * size) (Real.sqrt 3 * size) (by linarith)
      (mul_pos (Real.sqrt_pos.mpr (by norm_num)) hsize) minLat
      ((⌈((maxLon + 1.5 * size) - minLon) / (1.5 * size)⌉).toNat) 0 minLon rfl]
    congr 1
    funext c
    apply List.map_congr_left
    intro r _
    simp [colShift]
  · simp only [hexagon_flat, deg2rad, List.map_cons, List.map_nil,
      show (6 : ℕ) = 5 + 1 from rfl, List.range_succ, List.map_append,
      List.range_zero, List.nil_append, List.cons_append]
    norm_num [Prod.mk.injEq]
    ring_nf
    norm_num
    constructor
    · left
      rw [show Real.pi * (1 / 3) = Real.pi / 3 from by ring, Real.cos_pi_div_three]
    · left
      rw [show Real.pi * (1 / 3) = Real.pi / 3 from by ring, Real.sin_pi_div_three]
      ring
  · rfl
  · intro p hp
    simp only [hexagon_flat, deg2rad, List.map_cons, List.map_nil,
      List.mem_cons, List.not_mem_nil, or_false] at hp
    rcases hp with h | h | h | h | h | h | h <;> subst h <;>
      exact hexVertexDist lon lat size _

/-- Witness for spec_c2 at the unit bounding box parameters: hex_size 1 over
the degenerate box [0,0] x [0,0] and a hexagon centered at the origin. -/
theorem spec_c2_witness :
    gridCenters 0 0 0 0 1 one_pos =
      (List.range ((⌈(((0 : ℝ) + 1.5 * 1) - 0) / (1.5 * 1)⌉).toNat)).flatMap
        (fun c : ℕ =>
          (List.range ((⌈(((0 : ℝ) + Real.sqrt 3 * 1) - 0) /
              (Real.sqrt 3 * 1)⌉).toNat)).map (fun r : ℕ =>
            ((0 : ℝ) + (c : ℝ) * (1.5 * 1),
             (0 : ℝ) + (r : ℝ) * (Real.sqrt 3 * 1) +
               (if c % 2 = 1 then (Real.sqrt 3 * 1) / 2 else 0)))) ∧
    hexagon_flat 0 0 1 =
      ((List.range 6).map (fun k : ℕ =>
        ((0 : ℝ) + 1 * Real.cos ((k : ℝ) * (Real.pi / 3)),
         (0 : ℝ) + 1 * Real.sin ((k : ℝ) * (Real.pi / 3))))) ++
        [((0 : ℝ) + 1 * Real.cos 0, (0 : ℝ) + 1 * Real.sin 0)] ∧
    (hexagon_flat 0 0 1).getLast? = (hexagon_flat 0 0 1).head? ∧
    (∀ p ∈ hexagon_flat 0 0 1,
      (p.1 - 0) ^ 2 + (p.2 - 0) ^ 2 = (1 : ℝ) ^ 2) :=
  spec_c2 0 0 0 0 1 0 0 one_pos
